import Mathlib

/-!
Verification of the mellon token store and connection handler.

Shallow embedding of the Rust sources:
- `src/tokens/token.rs` (Token, its parser and serializer),
- `src/tokens/token_store.rs` (TokenStore: new / reload / persist_to_file /
  contains_token / rebuild_token_lookup / create / rescind),
- `src/simple_server.rs` (MellonServer: extract_auth_token / serve_connection).

Rust `String`s are modelled as `List Char`, `HashMap<String, Token>` as an
association list whose insert replaces the entry of an existing key, and
`HashSet<String>` as a list queried up to membership.  The single backing
file owned by the store is modelled by the `FS` structure.  Randomness (the
v4 UUID generated by `create`) and I/O failures are modelled as explicit
parameters of the operations.
-/

deriving instance DecidableEq for Except

set_option synthInstance.maxHeartbeats 1000000

namespace Mellon

/-- Rust `String` / `&str`, modelled as a list of characters. -/
abbrev Str := List Char

/-- `pub struct Token(pub String, pub String)` from `src/tokens/token.rs`.
`label` is field `.0`, `secret` is field `.1`. -/
structure Token where
  label : Str
  secret : Str
deriving DecidableEq

/-- Splits a string at the first occurrence of `':'`, returning the parts
before and after it, or `none` when no `':'` occurs.  This models
`s.splitn(2, ':')` from `Token::from_str`: the Rust call yields two parts
exactly when a separator is present and one part otherwise. -/
def splitFirstColon : Str → Option (Str × Str)
  | [] => none
  | c :: cs =>
    if c = ':' then some ([], cs)
    else
      match splitFirstColon cs with
      | none => none
      | some (a, b) => some (c :: a, b)

/-- Rust `char::is_whitespace`: the Unicode White_Space property, i.e.
U+0009–U+000D, U+0020, U+0085, U+00A0, U+1680, U+2000–U+200A, U+2028,
U+2029, U+202F, U+205F and U+3000. -/
def isRustWhitespace (c : Char) : Bool :=
  let n := c.toNat
  (9 ≤ n && n ≤ 13) || n == 32 || n == 0x85 || n == 0xA0 || n == 0x1680
    || (0x2000 ≤ n && n ≤ 0x200A) || n == 0x2028 || n == 0x2029
    || n == 0x202F || n == 0x205F || n == 0x3000

/-- Rust `str::trim`: removes leading and trailing Unicode whitespace. -/
def trimChars (s : Str) : Str :=
  ((s.dropWhile isRustWhitespace).reverse.dropWhile isRustWhitespace).reverse

/-- `Token::from_str` from `src/tokens/token.rs`: split on the first `':'`;
fewer than two parts is a parse error; both parts are trimmed. -/
def Token.from_str (s : Str) : Option Token :=
  match splitFirstColon s with
  | none => none
  | some (a, b) => some ⟨trimChars a, trimChars b⟩

/-- `impl Display for Token`: `"{label}:{secret}"`. -/
def Token.display (t : Token) : Str := t.label ++ ':' :: t.secret

/-- The file system as seen by the store: whether the parent directory of the
backing path exists, and the raw content of the backing file (`none` models
`ErrorKind::NotFound` on open). -/
structure FS where
  parentDirExists : Bool
  file : Option Str
deriving DecidableEq

/-- Drops one trailing `'\r'` if present; `BufRead::lines` strips a CRLF. -/
def stripTrailCr (l : Str) : Str :=
  match l.reverse with
  | '\r' :: rest => rest.reverse
  | _ => l

/-- Worker for `splitLines`; `acc` is the current line accumulated in
reverse. -/
def splitLinesAux : Str → Str → List Str
  | acc, [] => if acc = [] then [] else [acc.reverse]
  | acc, c :: cs =>
    if c = '\n' then stripTrailCr acc.reverse :: splitLinesAux [] cs
    else splitLinesAux (c :: acc) cs

/-- Rust `BufRead::lines`: split on `'\n'`, strip a `'\r'` left at the end of
a line, keep a final segment not ended by `'\n'`, and yield nothing for the
empty input. -/
def splitLines (s : Str) : List Str := splitLinesAux [] s

/-- `HashMap<String, Token>` modelled as an association list. -/
abbrev TokenMap := List (Str × Token)

/-- The keys of the map. -/
def keys (m : TokenMap) : List Str := m.map Prod.fst

/-- The secrets of all tokens in the map, in entry order; rebuilding the
lookup set collects exactly these. -/
def secretsOf (m : TokenMap) : List Str := m.map (fun p => p.2.secret)

/-- `HashMap::insert`: replaces the value when the key is present, otherwise
adds the binding. -/
def insertMap (m : TokenMap) (k : Str) (v : Token) : TokenMap :=
  if k ∈ keys m then m.map (fun p => if p.1 = k then (k, v) else p)
  else m ++ [(k, v)]

/-- `HashMap::remove`. -/
def removeMap (m : TokenMap) (k : Str) : TokenMap :=
  m.filter (fun p => decide (p.1 ≠ k))

/-- `HashMap::get`. -/
def lookupMap (m : TokenMap) (k : Str) : Option Token :=
  (m.find? (fun p => decide (p.1 = k))).map Prod.snd

/-- `pub struct TokenStore` from `src/tokens/token_store.rs`: the two
`Option`-wrapped collections (`tokens`, `token_lookup`).  The `file_path`
reference is represented by the separate `FS` value passed to the
operations. -/
structure TokenStore where
  tokens : Option TokenMap
  token_lookup : Option (List Str)
deriving DecidableEq

/-- The distinct error outcomes of the store operations (the source uses
`anyhow` messages; only the identity of the failure matters here). -/
inductive StoreErr
  | notLoaded
  | parseError
  | duplicateLabel
  | noSuchLabel
  | ioError
deriving DecidableEq

/-- The parsing loop of `TokenStore::reload`: parse each line and insert it
under the parsed token's label (`token_map.insert(token.0.clone(), token)`);
any unparseable line fails the whole pass. -/
def parseLinesAux (acc : TokenMap) : List Str → Option TokenMap
  | [] => some acc
  | line :: rest =>
    match Token.from_str line with
    | none => none
    | some t => parseLinesAux (insertMap acc t.label t) rest

/-- `TokenStore::rebuild_token_lookup`: errors (with `none`) when the tokens
map is not loaded, otherwise replaces `token_lookup` with the set of secrets
of the current tokens. -/
def rebuild_token_lookup (st : TokenStore) : Option TokenStore :=
  match st.tokens with
  | none => none
  | some m => some { st with token_lookup := some (secretsOf m) }

/-- `TokenStore::reload`: a missing file loads an empty store; otherwise all
lines are parsed into a fresh map which is committed only on full success,
followed by a lookup rebuild.  On a parse failure the store is returned
untouched, mirroring that the Rust code assigns `self.tokens` only after the
whole loop succeeded. -/
def reload (st : TokenStore) (fs : FS) : Except StoreErr Unit × TokenStore :=
  match fs.file with
  | none => (Except.ok (), { st with tokens := some [], token_lookup := some [] })
  | some content =>
    match parseLinesAux [] (splitLines content) with
    | none => (Except.error StoreErr.parseError, st)
    | some m =>
      let st1 : TokenStore := { st with tokens := some m }
      match rebuild_token_lookup st1 with
      | none => (Except.error StoreErr.notLoaded, st1)
      | some st2 => (Except.ok (), st2)

/-- `TokenStore::new`: constructs the store with both fields unset and
performs the initial `reload`.  The source performs no file-system mutation
here (in particular it creates no directory), so the file system is returned
unchanged. -/
def TokenStore.new (fs : FS) : Except StoreErr TokenStore × FS :=
  let st0 : TokenStore := ⟨none, none⟩
  match reload st0 fs with
  | (Except.ok _, st) => (Except.ok st, fs)
  | (Except.error e, _) => (Except.error e, fs)

/-- The bytes `persist_to_file` writes: one `writeln!` of `Display` output
per token. -/
def serialize (m : TokenMap) : Str :=
  (m.map (fun p => Token.display p.2 ++ ['\n'])).flatten

/-- `TokenStore::persist_to_file`: `File::create` truncates the backing file
and the current tokens are written one line each (nothing when the map is
unset). -/
def persist_to_file (st : TokenStore) (fs : FS) : FS :=
  { fs with
    file := some (match st.tokens with
      | none => []
      | some m => serialize m) }

/-- `TokenStore::contains_token`: errors (with `none`) when the lookup set
was never built, otherwise a membership test of the secret. -/
def contains_token (st : TokenStore) (s : Str) : Option Bool :=
  match st.token_lookup with
  | none => none
  | some lk => some (decide (s ∈ lk))

/-- `TokenStore::create`: fails when unloaded or when the label exists;
otherwise inserts `Token(label, uuid)` (the generated v4 UUID is the
`newSecret` parameter), rebuilds the lookup, then persists.  `writeOk` says
whether the file write succeeds; when it fails the error is returned after
the in-memory mutation has already happened. -/
def create (st : TokenStore) (fs : FS) (label newSecret : Str)
    (writeOk : Bool) : Except StoreErr Token × TokenStore × FS :=
  match st.tokens with
  | none => (Except.error StoreErr.notLoaded, st, fs)
  | some m =>
    if label ∈ keys m then (Except.error StoreErr.duplicateLabel, st, fs)
    else
      let t : Token := ⟨label, newSecret⟩
      let st1 : TokenStore := { st with tokens := some (insertMap m label t) }
      match rebuild_token_lookup st1 with
      | none => (Except.error StoreErr.notLoaded, st1, fs)
      | some st2 =>
        if writeOk then (Except.ok t, st2, persist_to_file st2 fs)
        else (Except.error StoreErr.ioError, st2, fs)

/-- `TokenStore::rescind`: fails when unloaded or when the label is absent;
otherwise removes the entry, rebuilds the lookup, then persists (same
`writeOk` convention as `create`). -/
def rescind (st : TokenStore) (fs : FS) (label : Str)
    (writeOk : Bool) : Except StoreErr Unit × TokenStore × FS :=
  match st.tokens with
  | none => (Except.error StoreErr.notLoaded, st, fs)
  | some m =>
    if label ∈ keys m then
      let st1 : TokenStore := { st with tokens := some (removeMap m label) }
      match rebuild_token_lookup st1 with
      | none => (Except.error StoreErr.notLoaded, st1, fs)
      | some st2 =>
        if writeOk then (Except.ok (), st2, persist_to_file st2 fs)
        else (Except.error StoreErr.ioError, st2, fs)
    else (Except.error StoreErr.noSuchLabel, st, fs)

/-- The two responses of `simple_server.rs`. -/
inductive HttpResponse
  | ok
  | unauthorised
deriving DecidableEq

/-- `HttpResponse::as_str`. -/
def HttpResponse.as_str : HttpResponse → Str
  | HttpResponse.ok => "HTTP/1.1 200 OK\r\n\r\n".data
  | HttpResponse.unauthorised => "HTTP/1.1 401 UNAUTHORISED\r\n\r\n".data

/-- One step of `buf_reader.lines()` on the connection: a successfully read
header line, a timeout (`ErrorKind::TimedOut`), or another read error. -/
inductive ReadEvent
  | line (s : Str)
  | timedOut
  | readError
deriving DecidableEq

/-- The failures `serve_connection` can propagate. -/
inductive ServeErr
  | timedOut
  | readError
  | storeNotLoaded
deriving DecidableEq

/-- The exact header marker matched by `extract_auth_token`. -/
def authPre : Str := "Authorization: Bearer ".data

/-- Rust `str::strip_prefix` on character lists: `some rest` when the second
argument is the first followed by `rest`. -/
def stripPre : Str → Str → Option Str
  | [], s => some s
  | _ :: _, [] => none
  | p :: ps, c :: cs => if p = c then stripPre ps cs else none

/-- `MellonServer::extract_auth_token`: scan the read header lines in order;
a line carrying the bearer marker returns its remainder at once, an empty
line stops the scan with no credential, end of input also yields none, and a
timeout or read error aborts the scan with the corresponding failure. -/
def extract_auth_token : List ReadEvent → Except ServeErr (Option Str)
  | [] => Except.ok none
  | ReadEvent.line s :: rest =>
    match stripPre authPre s with
    | some tok => Except.ok (some tok)
    | none => if s = [] then Except.ok none else extract_auth_token rest
  | ReadEvent.timedOut :: _ => Except.error ServeErr.timedOut
  | ReadEvent.readError :: _ => Except.error ServeErr.readError

/-- `MellonServer::serve_connection`: extraction failures propagate with `?`
(so no response is written); a found credential is tested against the store
(a store failure also propagates); otherwise the response written is 200 for
a member secret and 401 for a non-member or missing credential. -/
def serve_connection (st : TokenStore) (conn : List ReadEvent) :
    Except ServeErr HttpResponse :=
  match extract_auth_token conn with
  | Except.error e => Except.error e
  | Except.ok (some tok) =>
    match contains_token st tok with
    | none => Except.error ServeErr.storeNotLoaded
    | some true => Except.ok HttpResponse.ok
    | some false => Except.ok HttpResponse.unauthorised
  | Except.ok none => Except.ok HttpResponse.unauthorised

/-- The store invariant of the spec: the lookup set holds exactly the secrets
of the tokens currently in the map. -/
def Inv (st : TokenStore) : Prop :=
  ∃ m lk, st.tokens = some m ∧ st.token_lookup = some lk
    ∧ ∀ s : Str, s ∈ lk ↔ ∃ p ∈ m, p.2.secret = s

/-- A field neither starts nor ends with a character Rust's trim strips. -/
def noEdgeWhite (f : Str) : Bool :=
  (f.head?.all fun c => !isRustWhitespace c)
    && (f.getLast?.all fun c => !isRustWhitespace c)

/-- A field that survives the file format: no separator, no line break, and
no whitespace at either end (so trimming on read returns it unchanged). -/
def goodField (f : Str) : Prop :=
  ':' ∉ f ∧ '\n' ∉ f ∧ noEdgeWhite f = true

instance goodFieldDecidable (f : Str) : Decidable (goodField f) := by
  unfold goodField
  infer_instance

/-- A store holding exactly the given (label, secret) pairs, its lookup set
holding exactly their secrets. -/
def storeOfPairs (pairs : List (Str × Str)) : TokenStore :=
  ⟨some (pairs.map (fun p => (p.1, ⟨p.1, p.2⟩))),
   some (secretsOf (pairs.map (fun p => (p.1, ⟨p.1, p.2⟩))))⟩

/- ------------------------------------------------------------------ -/
/- Helper lemmas                                                       -/
/- ------------------------------------------------------------------ -/

lemma splitFirstColon_eq_none (l : Str) : splitFirstColon l = none ↔ ':' ∉ l := by
  induction l with
  | nil => simp [splitFirstColon]
  | cons c cs ih =>
    by_cases hc : c = ':'
    · subst hc; simp [splitFirstColon]
    · rcases h : splitFirstColon cs with _ | ⟨a, b⟩ <;>
        simp [splitFirstColon, hc, h, ← ih, Ne.symm hc]

lemma splitFirstColon_append (a b : Str) (h : ':' ∉ a) :
    splitFirstColon (a ++ ':' :: b) = some (a, b) := by
  induction a with
  | nil => simp [splitFirstColon]
  | cons c cs ih =>
    have hc : c ≠ ':' := fun e => h (e ▸ List.mem_cons_self c cs)
    have hcs : ':' ∉ cs := fun hm => h (List.mem_cons_of_mem _ hm)
    simp [splitFirstColon, hc, ih hcs]

lemma from_str_eq_none (s : Str) : Token.from_str s = none ↔ ':' ∉ s := by
  rw [← splitFirstColon_eq_none]
  unfold Token.from_str
  rcases h : splitFirstColon s with _ | ⟨a, b⟩ <;> simp [h]

lemma insertMap_fresh (m : TokenMap) (k : Str) (v : Token) (h : k ∉ keys m) :
    insertMap m k v = m ++ [(k, v)] := by
  simp [insertMap, h]

lemma parseLinesAux_none (acc : TokenMap) (ls : List Str)
    (h : ∃ l ∈ ls, Token.from_str l = none) : parseLinesAux acc ls = none := by
  induction ls generalizing acc with
  | nil => simp at h
  | cons x rest ih =>
    obtain ⟨l, hl, hbad⟩ := h
    rcases List.mem_cons.mp hl with rfl | hl2
    · simp [parseLinesAux, hbad]
    · cases hx : Token.from_str x with
      | none => simp [parseLinesAux, hx]
      | some t =>
        simp only [parseLinesAux, hx]
        exact ih _ ⟨l, hl2, hbad⟩

lemma mem_secretsOf (m : TokenMap) (s : Str) :
    s ∈ secretsOf m ↔ ∃ p ∈ m, p.2.secret = s := by
  simp only [secretsOf, List.mem_map]

lemma removeMap_ne (m : TokenMap) (label : Str) (h : label ∈ keys m) :
    removeMap m label ≠ m := by
  intro he
  simp only [keys] at h
  obtain ⟨p, hp, hpl⟩ := List.mem_map.mp h
  have hpr : p ∈ removeMap m label := by rw [he]; exact hp
  have h2 := (List.mem_filter.mp hpr).2
  rw [hpl] at h2
  simp at h2

lemma stripPre_append (p r : Str) : stripPre p (p ++ r) = some r := by
  induction p with
  | nil => rfl
  | cons c cs ih => simp [stripPre, ih]

lemma extract_skip (lpre : List Str) (evs : List ReadEvent)
    (hpre : ∀ l ∈ lpre, l ≠ [] ∧ stripPre authPre l = none) :
    extract_auth_token (lpre.map ReadEvent.line ++ evs) = extract_auth_token evs := by
  induction lpre with
  | nil => rfl
  | cons x rest ih =>
    obtain ⟨hne, hns⟩ := hpre x (List.mem_cons_self x rest)
    simp only [List.map_cons, List.cons_append, extract_auth_token, hns, if_neg hne]
    exact ih (fun l hl => hpre l (List.mem_cons_of_mem _ hl))

/- ------------------------------------------------------------------ -/
/- Claims                                                              -/
/- ------------------------------------------------------------------ -/

/-- C9: token parsing splits on the first ':' into two parts, trims each, and
fails exactly when the line has no ':' at all; text after the first separator
(so including further ':' characters) becomes the secret. -/
theorem claim9_token_parsing :
    (∀ s : Str, Token.from_str s = none ↔ ':' ∉ s)
    ∧ (∀ a b : Str, ':' ∉ a →
        Token.from_str (a ++ ':' :: b) = some ⟨trimChars a, trimChars b⟩) := by
  refine ⟨from_str_eq_none, fun a b h => ?_⟩
  unfold Token.from_str
  rw [splitFirstColon_append a b h]

/-- C9 witness: `"x:y:z"` parses with label `"x"` and secret `"y:z"`. -/
theorem claim9_witness :
    Token.from_str (['x'] ++ ':' :: "y:z".data)
      = some ⟨trimChars ['x'], trimChars "y:z".data⟩ :=
  claim9_token_parsing.2 ['x'] "y:z".data (by decide)

/-- C7: on a loaded store, `create` with an existing label and `rescind` with
an absent label fail with the respective validation error and return the
store and the file system exactly unchanged. -/
theorem claim7_validation_leaves_unchanged (st : TokenStore) (fs : FS)
    (m : TokenMap) (hm : st.tokens = some m) :
    (∀ label newSecret w, label ∈ keys m →
      create st fs label newSecret w
        = (Except.error StoreErr.duplicateLabel, st, fs))
    ∧ (∀ label w, label ∉ keys m →
      rescind st fs label w = (Except.error StoreErr.noSuchLabel, st, fs)) := by
  constructor
  · intro label newSecret w hk
    simp [create, hm, hk]
  · intro label w hk
    simp [rescind, hm, hk]

/-- C7 witness: duplicate-label `create` on a one-token store is rejected
with everything unchanged. -/
theorem claim7_witness :
    create ⟨some [(['a'], ⟨['a'], ['s']⟩)], some [['s']]⟩ ⟨true, none⟩ ['a'] ['u'] true
      = (Except.error StoreErr.duplicateLabel,
         ⟨some [(['a'], ⟨['a'], ['s']⟩)], some [['s']]⟩, ⟨true, none⟩) :=
  (claim7_validation_leaves_unchanged _ ⟨true, none⟩ _ rfl).1 ['a'] ['u'] true (by decide)

/-- C3: when the backing file has a line with no ':', `reload` fails with the
parse error and returns the store with its previous in-memory state exactly
as it was. -/
theorem claim3_failed_reload_preserves_state (st : TokenStore) (fs : FS)
    (m0 : TokenMap) (lk0 : List Str)
    (hm : st.tokens = some m0) (hl : st.token_lookup = some lk0)
    (content : Str) (hf : fs.file = some content)
    (l : Str) (hmem : l ∈ splitLines content) (hnc : ':' ∉ l) :
    reload st fs = (Except.error StoreErr.parseError, st) := by
  have hbad : Token.from_str l = none := (from_str_eq_none l).mpr hnc
  have hfail : parseLinesAux [] (splitLines content) = none :=
    parseLinesAux_none _ _ ⟨l, hmem, hbad⟩
  simp [reload, hf, hfail]

/-- C3 witness: a loaded store survives a reload over the file `"bad\n"`. -/
theorem claim3_witness :
    reload ⟨some [(['a'], ⟨['a'], ['s']⟩)], some [['s']]⟩ ⟨true, some "bad\n".data⟩
      = (Except.error StoreErr.parseError,
         ⟨some [(['a'], ⟨['a'], ['s']⟩)], some [['s']]⟩) :=
  claim3_failed_reload_preserves_state _ _ _ _ rfl rfl _ rfl "bad".data
    (by decide) (by decide)

/-- C6 counterexample: on a timed-out read the handler does not write the
unauthorized response (it propagates the failure instead). -/
theorem claim6_cex :
    ¬ (serve_connection ⟨some [], some []⟩ [ReadEvent.timedOut]
        = Except.ok HttpResponse.unauthorised) := by decide

/-- C6 (amended): when reading the header lines fails with a timeout or read
error, `serve_connection` propagates that failure and writes no response at
all — in particular no success response — instead of answering 401. -/
theorem claim6_read_failure_propagates (st : TokenStore)
    (conn : List ReadEvent) (e : ServeErr)
    (h : extract_auth_token conn = Except.error e) :
    serve_connection st conn = Except.error e := by
  simp [serve_connection, h]

/-- C6 witness: a connection that times out immediately yields the timeout
failure, not a written response. -/
theorem claim6_witness :
    serve_connection ⟨some [], some []⟩ [ReadEvent.timedOut]
      = Except.error ServeErr.timedOut :=
  claim6_read_failure_propagates _ _ _ rfl

/-- C8 counterexample: `new` over a file system whose parent directory is
absent succeeds and leaves the file system exactly as it was — no directory
is created. -/
theorem claim8_cex :
    (TokenStore.new ⟨false, none⟩).1 = Except.ok ⟨some [], some []⟩
    ∧ (TokenStore.new ⟨false, none⟩).2 = ⟨false, none⟩ := by decide

/-- C8 (amended): `new` performs the initial reload directly and never
touches the file system (in particular it does not create the parent
directory); a missing file yields a successfully constructed empty store. -/
theorem claim8_new_missing_file (fs : FS) (hf : fs.file = none) :
    TokenStore.new fs = (Except.ok ⟨some [], some []⟩, fs) := by
  simp [TokenStore.new, reload, hf]

/-- C8 witness: construction over a missing file (and missing parent
directory) succeeds with the empty store. -/
theorem claim8_witness :
    TokenStore.new ⟨false, none⟩ = (Except.ok ⟨some [], some []⟩, ⟨false, none⟩) :=
  claim8_new_missing_file ⟨false, none⟩ rfl

lemma inv_canonical (m : TokenMap) : Inv ⟨some m, some (secretsOf m)⟩ :=
  ⟨m, secretsOf m, rfl, rfl, fun s => mem_secretsOf m s⟩

lemma reload_ok_canonical (st : TokenStore) (fs : FS) (u : Unit)
    (st2 : TokenStore) (h : reload st fs = (Except.ok u, st2)) :
    ∃ m, st2 = ⟨some m, some (secretsOf m)⟩ := by
  rcases hf : fs.file with _ | content
  · refine ⟨[], ?_⟩
    simp only [reload, hf] at h
    exact (Prod.mk.injEq _ _ _ _ ▸ h).2.symm
  · rcases hp : parseLinesAux [] (splitLines content) with _ | m
    · simp [reload, hf, hp] at h
    · refine ⟨m, ?_⟩
      simp only [reload, hf, hp, rebuild_token_lookup] at h
      exact (Prod.mk.injEq _ _ _ _ ▸ h).2.symm

/-- C4: the lookup set always holds exactly the secrets of the tokens in the
map — established by `new` and preserved by every outcome (success or
failure) of `reload`, `create` and `rescind`, the mutating operations
rebuilding it synchronously. -/
theorem claim4_lookup_invariant :
    (∀ fs st, (TokenStore.new fs).1 = Except.ok st → Inv st)
    ∧ (∀ st fs, Inv st → Inv (reload st fs).2)
    ∧ (∀ st fs label newSecret w, Inv st → Inv (create st fs label newSecret w).2.1)
    ∧ (∀ st fs label w, Inv st → Inv (rescind st fs label w).2.1) := by
  refine ⟨?_, ?_, ?_, ?_⟩
  · intro fs st h
    rcases hr : reload ⟨none, none⟩ fs with ⟨r1, st2⟩
    cases r1 with
    | error e => simp [TokenStore.new, hr] at h
    | ok u =>
      have hst : st = st2 := by simp [TokenStore.new, hr] at h; exact h.symm
      obtain ⟨m, hm⟩ := reload_ok_canonical _ _ _ _ hr
      rw [hst, hm]
      exact inv_canonical m
  · intro st fs hinv
    rcases hf : fs.file with _ | content
    · simpa [reload, hf] using inv_canonical []
    · rcases hp : parseLinesAux [] (splitLines content) with _ | m
      · simpa [reload, hf, hp] using hinv
      · simpa [reload, hf, hp, rebuild_token_lookup] using inv_canonical m
  · intro st fs label newSecret w hinv
    rcases hm : st.tokens with _ | m
    · simpa [create, hm] using hinv
    · by_cases hk : label ∈ keys m
      · simpa [create, hm, hk] using hinv
      · cases w <;>
          simpa [create, hm, hk, rebuild_token_lookup] using
            inv_canonical (insertMap m label ⟨label, newSecret⟩)
  · intro st fs label w hinv
    rcases hm : st.tokens with _ | m
    · simpa [rescind, hm] using hinv
    · by_cases hk : label ∈ keys m
      · cases w <;>
          simpa [rescind, hm, hk, rebuild_token_lookup] using
            inv_canonical (removeMap m label)
      · simpa [rescind, hm, hk] using hinv

/-- C4 witness: the invariant holds concretely after a `create` on the empty
store. -/
theorem claim4_witness :
    Inv (create ⟨some [], some []⟩ ⟨true, none⟩ ['a'] ['s'] true).2.1 :=
  claim4_lookup_invariant.2.2.1 ⟨some [], some []⟩ ⟨true, none⟩ ['a'] ['s'] true
    (inv_canonical [])

/-- C10: when the file write at the end of the operation fails, `create` and
`rescind` return the I/O error, yet the in-memory maps have already been
committed: the token is inserted (resp. removed) and the lookup set rebuilt,
so the store differs from its pre-call state instead of being rolled back. -/
theorem claim10_persist_failure_commits (st : TokenStore) (fs : FS)
    (m : TokenMap) (hm : st.tokens = some m) :
    (∀ label newSecret, label ∉ keys m →
      (create st fs label newSecret false).1 = Except.error StoreErr.ioError
      ∧ (create st fs label newSecret false).2.1
          = ⟨some (m ++ [(label, ⟨label, newSecret⟩)]),
             some (secretsOf (m ++ [(label, ⟨label, newSecret⟩)]))⟩
      ∧ (create st fs label newSecret false).2.1.tokens ≠ st.tokens)
    ∧ (∀ label, label ∈ keys m →
      (rescind st fs label false).1 = Except.error StoreErr.ioError
      ∧ (rescind st fs label false).2.1
          = ⟨some (removeMap m label), some (secretsOf (removeMap m label))⟩
      ∧ (rescind st fs label false).2.1.tokens ≠ st.tokens) := by
  constructor
  · intro label newSecret hk
    have hins := insertMap_fresh m label ⟨label, newSecret⟩ hk
    refine ⟨?_, ?_, ?_⟩
    · simp [create, hm, hk, rebuild_token_lookup]
    · simp [create, hm, hk, hins, rebuild_token_lookup]
    · have h21 : (create st fs label newSecret false).2.1
          = ⟨some (m ++ [(label, ⟨label, newSecret⟩)]),
             some (secretsOf (m ++ [(label, ⟨label, newSecret⟩)]))⟩ := by
        simp [create, hm, hk, hins, rebuild_token_lookup]
      rw [h21, hm]
      intro he
      have hlist := Option.some.inj he
      have hlen := congrArg List.length hlist
      simp at hlen
  · intro label hk
    refine ⟨?_, ?_, ?_⟩
    · simp [rescind, hm, hk, rebuild_token_lookup]
    · simp [rescind, hm, hk, rebuild_token_lookup]
    · have h21 : (rescind st fs label false).2.1
          = ⟨some (removeMap m label), some (secretsOf (removeMap m label))⟩ := by
        simp [rescind, hm, hk, rebuild_token_lookup]
      rw [h21, hm]
      intro he
      exact removeMap_ne m label hk (Option.some.inj he)

/-- C10 witness: with the write failing, `create` on the empty store reports
the I/O error while the new token is already present in memory. -/
theorem claim10_witness :
    (create ⟨some [], some []⟩ ⟨true, none⟩ ['a'] ['u'] false).1
        = Except.error StoreErr.ioError
    ∧ (create ⟨some [], some []⟩ ⟨true, none⟩ ['a'] ['u'] false).2.1
        = ⟨some ([] ++ [(['a'], ⟨['a'], ['u']⟩)]),
           some (secretsOf ([] ++ [(['a'], ⟨['a'], ['u']⟩)]))⟩ := by
  have h := (claim10_persist_failure_commits ⟨some [], some []⟩ ⟨true, none⟩ []
    rfl).1 ['a'] ['u'] (by decide)
  exact ⟨h.1, h.2.1⟩

/-- C1 counterexample: in a successfully loadable store where two labels
share the same secret, rescinding one of them succeeds yet the removed
token's secret is still reported as contained, against the claim's demand
that `contains_token` then return false. -/
theorem claim1_cex :
    (rescind ⟨some [(['a'], ⟨['a'], ['s']⟩), (['b'], ⟨['b'], ['s']⟩)],
        some [['s'], ['s']]⟩ ⟨true, some []⟩ ['a'] true).1 = Except.ok ()
    ∧ lookupMap [(['a'], ⟨['a'], ['s']⟩), (['b'], ⟨['b'], ['s']⟩)] ['a']
        = some ⟨['a'], ['s']⟩
    ∧ ¬ (contains_token (rescind ⟨some [(['a'], ⟨['a'], ['s']⟩),
          (['b'], ⟨['b'], ['s']⟩)], some [['s'], ['s']]⟩
          ⟨true, some []⟩ ['a'] true).2.1 ['s'] = some false) := by decide

/-- C1 (amended): after a successful `create` the new secret is contained;
after a successful `rescind` the removed token's secret is no longer
contained provided no other token holds the same secret; and the membership
answer for the secret of every untouched token is unchanged by either
operation. -/
theorem claim1_membership_after_ops (st : TokenStore) (fs : FS) (m : TokenMap)
    (hm : st.tokens = some m) (hl : st.token_lookup = some (secretsOf m)) :
    (∀ label newSecret, label ∉ keys m →
      (create st fs label newSecret true).1 = Except.ok ⟨label, newSecret⟩
      ∧ contains_token (create st fs label newSecret true).2.1 newSecret
          = some true
      ∧ ∀ p ∈ m, contains_token (create st fs label newSecret true).2.1 p.2.secret
          = contains_token st p.2.secret)
    ∧ (∀ label t, lookupMap m label = some t →
      (rescind st fs label true).1 = Except.ok ()
      ∧ ((∀ p ∈ m, p.1 ≠ label → p.2.secret ≠ t.secret) →
          contains_token (rescind st fs label true).2.1 t.secret = some false)
      ∧ ∀ p ∈ m, p.1 ≠ label →
          contains_token (rescind st fs label true).2.1 p.2.secret
            = contains_token st p.2.secret) := by
  constructor
  · intro label newSecret hk
    have hins := insertMap_fresh m label ⟨label, newSecret⟩ hk
    refine ⟨?_, ?_, ?_⟩
    · simp [create, hm, hk, rebuild_token_lookup]
    · simp [create, hm, hk, hins, rebuild_token_lookup, contains_token, secretsOf]
    · intro p hp
      have hmem : p.2.secret ∈ secretsOf m := (mem_secretsOf m _).mpr ⟨p, hp, rfl⟩
      simp [create, hm, hk, hins, rebuild_token_lookup, contains_token, hl,
        secretsOf, List.mem_append]
      intro _
      exact ⟨p.1, p.2, hp, rfl⟩
  · intro label t hlk
    unfold lookupMap at hlk
    rcases hq : List.find? (fun p => decide (p.1 = label)) m with _ | q
    · rw [hq] at hlk
      exact Option.noConfusion hlk
    · rw [hq] at hlk
      have hqm : q ∈ m := List.mem_of_find?_eq_some hq
      have hq1 : q.1 = label := by simpa using List.find?_some hq
      have hkey : label ∈ keys m := by
        simp only [keys]
        exact List.mem_map.mpr ⟨q, hqm, hq1⟩
      have hlv : q.2 = t := Option.some.inj hlk
      refine ⟨?_, ?_, ?_⟩
      · simp [rescind, hm, hkey, rebuild_token_lookup]
      · intro hdist
        have hnot : t.secret ∉ secretsOf (removeMap m label) := by
          intro hmem
          obtain ⟨p, hp, hps⟩ := (mem_secretsOf _ _).mp hmem
          have hpm : p ∈ m := (List.mem_filter.mp hp).1
          have hpl : p.1 ≠ label := by
            have h2 := (List.mem_filter.mp hp).2
            simpa using h2
          exact absurd hps (hdist p hpm hpl)
        simp [rescind, hm, hkey, rebuild_token_lookup, contains_token, hnot]
      · intro p hp hne
        have hin : p ∈ removeMap m label :=
          List.mem_filter.mpr ⟨hp, by simpa using hne⟩
        have hmem2 : p.2.secret ∈ secretsOf (removeMap m label) :=
          (mem_secretsOf _ _).mpr ⟨p, hin, rfl⟩
        have hmem1 : p.2.secret ∈ secretsOf m :=
          (mem_secretsOf _ _).mpr ⟨p, hp, rfl⟩
        simp [rescind, hm, hkey, rebuild_token_lookup, contains_token, hl,
          hmem1, hmem2]

/-- C1 witness: creating a token in a one-token store makes its fresh secret
contained, and the operation reports the created token. -/
theorem claim1_witness :
    (create ⟨some [(['a'], ⟨['a'], ['s']⟩)],
        some (secretsOf [(['a'], ⟨['a'], ['s']⟩)])⟩
        ⟨true, none⟩ ['b'] ['u'] true).1 = Except.ok ⟨['b'], ['u']⟩
    ∧ contains_token (create ⟨some [(['a'], ⟨['a'], ['s']⟩)],
        some (secretsOf [(['a'], ⟨['a'], ['s']⟩)])⟩
        ⟨true, none⟩ ['b'] ['u'] true).2.1 ['u'] = some true := by
  have h := (claim1_membership_after_ops
    ⟨some [(['a'], ⟨['a'], ['s']⟩)], some (secretsOf [(['a'], ⟨['a'], ['s']⟩)])⟩
    ⟨true, none⟩ [(['a'], ⟨['a'], ['s']⟩)] rfl rfl).1 ['b'] ['u'] (by decide)
  exact ⟨h.1, h.2.1⟩

/-- C5: on a connection whose header lines are all read successfully, a line
carrying the exact marker before any empty line makes its remainder the
candidate secret and the written status is 200 exactly when the store
contains it (401 otherwise); reaching an empty line first yields 401 without
consulting the store — the answer is 401 for every store value, loaded or
not. -/
theorem claim5_bearer_decision (st : TokenStore) (lk : List Str)
    (hst : st.token_lookup = some lk) (lpre : List Str)
    (hpre : ∀ l ∈ lpre, l ≠ [] ∧ stripPre authPre l = none) :
    (∀ t rest,
      serve_connection st ((lpre ++ (authPre ++ t) :: rest).map ReadEvent.line)
        = Except.ok (if contains_token st t = some true then HttpResponse.ok
            else HttpResponse.unauthorised))
    ∧ ∀ rest (st2 : TokenStore),
      serve_connection st2 ((lpre ++ [] :: rest).map ReadEvent.line)
        = Except.ok HttpResponse.unauthorised := by
  constructor
  · intro t rest
    have hex : extract_auth_token
        ((lpre ++ (authPre ++ t) :: rest).map ReadEvent.line)
        = Except.ok (some t) := by
      rw [List.map_append, extract_skip lpre _ hpre]
      simp [extract_auth_token, stripPre_append]
    rw [serve_connection, hex]
    rw [contains_token, hst]
    by_cases ht : t ∈ lk <;> simp [contains_token, hst, ht]
  · intro rest st2
    have hex : extract_auth_token ((lpre ++ [] :: rest).map ReadEvent.line)
        = Except.ok none := by
      rw [List.map_append, extract_skip lpre _ hpre]
      have hzero : stripPre authPre ([] : Str) = none := by decide
      simp [extract_auth_token, hzero]
    rw [serve_connection, hex]

/-- C5 witness: a connection presenting the bearer line for a stored secret
is answered according to the membership test (here: success). -/
lemma dropWhile_white_eq_self (l : Str)
    (h : l.head?.all (fun c => !isRustWhitespace c) = true) :
    l.dropWhile isRustWhitespace = l := by
  cases l with
  | nil => rfl
  | cons c cs =>
    simp only [List.head?_cons, Option.all_some, Bool.not_eq_true'] at h
    simp [List.dropWhile_cons, h]

lemma trimChars_eq_self (l : Str) (h : noEdgeWhite l = true) : trimChars l = l := by
  rw [noEdgeWhite, Bool.and_eq_true] at h
  unfold trimChars
  rw [dropWhile_white_eq_self l h.1]
  rw [dropWhile_white_eq_self l.reverse (by rw [List.head?_reverse]; exact h.2)]
  exact List.reverse_reverse l

lemma stripTrailCr_eq_self (l : Str) (h : l.getLast? ≠ some '\r') :
    stripTrailCr l = l := by
  unfold stripTrailCr
  split
  · rename_i rest hrev
    exact absurd (by rw [← List.head?_reverse, hrev]; rfl) h
  · rfl

lemma display_getLast_ne_cr (t : Token) (hs : noEdgeWhite t.secret = true) :
    (Token.display t).getLast? ≠ some '\r' := by
  rw [Token.display, List.getLast?_append_cons]
  rcases hsec : t.secret with _ | ⟨c, cs⟩
  · decide
  · rw [List.getLast?_cons_cons]
    rw [noEdgeWhite, Bool.and_eq_true] at hs
    have h2 := hs.2
    rw [hsec] at h2
    intro hcon
    rw [hcon] at h2
    exact absurd h2 (by decide)

lemma display_not_mem_nl (t : Token) (h1 : '\n' ∉ t.label)
    (h2 : '\n' ∉ t.secret) : '\n' ∉ Token.display t := by
  rw [Token.display]
  intro hmem
  rcases List.mem_append.mp hmem with h | h
  · exact h1 h
  · rcases List.mem_cons.mp h with h | h
    · exact absurd h (by decide)
    · exact h2 h

lemma splitLinesAux_append (l rest : Str) :
    ∀ acc, '\n' ∉ l →
      splitLinesAux acc (l ++ '\n' :: rest)
        = stripTrailCr (acc.reverse ++ l) :: splitLinesAux [] rest := by
  induction l with
  | nil =>
    intro acc _
    simp [splitLinesAux]
  | cons c cs ih =>
    intro acc h
    have hc : c ≠ '\n' := fun e => h (e ▸ List.mem_cons_self c cs)
    have hcs : '\n' ∉ cs := fun hm => h (List.mem_cons_of_mem _ hm)
    simp only [List.cons_append, splitLinesAux, if_neg hc, List.append_eq]
    rw [ih (c :: acc) hcs]
    congr 2
    simp

lemma splitLines_flatten (ls : List Str)
    (h : ∀ l ∈ ls, '\n' ∉ l ∧ stripTrailCr l = l) :
    splitLines ((ls.map (fun l => l ++ ['\n'])).flatten) = ls := by
  induction ls with
  | nil => rfl
  | cons l rest ih =>
    obtain ⟨hnl, hcr⟩ := h l (List.mem_cons_self l rest)
    have hrest := fun x hx => h x (List.mem_cons_of_mem _ hx)
    simp only [List.map_cons, List.flatten_cons]
    rw [show (l ++ ['\n']) ++ (rest.map (fun x => x ++ ['\n'])).flatten
        = l ++ '\n' :: (rest.map (fun x => x ++ ['\n'])).flatten by simp]
    show splitLinesAux [] _ = _
    rw [splitLinesAux_append l _ [] hnl]
    rw [List.reverse_nil, List.nil_append, hcr]
    exact congrArg (l :: ·) (ih hrest)

lemma from_str_display (t : Token) (hc : ':' ∉ t.label)
    (hl : noEdgeWhite t.label = true) (hs : noEdgeWhite t.secret = true) :
    Token.from_str (Token.display t) = some t := by
  unfold Token.from_str Token.display
  rw [splitFirstColon_append _ _ hc]
  show some (⟨trimChars t.label, trimChars t.secret⟩ : Token) = some t
  rw [trimChars_eq_self _ hl, trimChars_eq_self _ hs]

lemma keys_append (a b : TokenMap) : keys (a ++ b) = keys a ++ keys b :=
  List.map_append Prod.fst a b

lemma parseLinesAux_roundtrip (m : TokenMap) :
    ∀ acc,
      (∀ p ∈ m, Token.from_str (Token.display p.2) = some p.2 ∧ p.2.label = p.1) →
      (keys acc ++ keys m).Nodup →
      parseLinesAux acc (m.map (fun p => Token.display p.2)) = some (acc ++ m) := by
  induction m with
  | nil =>
    intro acc _ _
    simp [parseLinesAux]
  | cons p rest ih =>
    intro acc hp hnd
    obtain ⟨hps, hpl⟩ := hp p (List.mem_cons_self p rest)
    simp only [List.map_cons, parseLinesAux, hps]
    have hfresh : p.2.label ∉ keys acc := by
      rw [hpl]
      intro hmem
      have hdisj := (List.nodup_append.mp hnd).2.2
      exact hdisj hmem (List.mem_cons_self p.1 (keys rest))
    rw [insertMap_fresh _ _ _ hfresh, hpl]
    have hnd2 : (keys (acc ++ [(p.1, p.2)]) ++ keys rest).Nodup := by
      rw [keys_append]
      rw [List.append_assoc]
      exact hnd
    rw [ih (acc ++ [(p.1, p.2)])
      (fun q hq2 => hp q (List.mem_cons_of_mem _ hq2)) hnd2]
    simp

/-- C2 counterexample: the single pair ("l", " ") has pairwise-distinct
labels and no ':' in either field, yet after persist-then-reload the secret
" " is no longer contained — the trim on read changed the stored token — so
the reloaded store is not equal to the original. -/
theorem claim2_cex :
    (∀ p ∈ [((['l'] : Str), ([' '] : Str))], ':' ∉ p.1 ∧ ':' ∉ p.2)
    ∧ ([((['l'] : Str), ([' '] : Str))].map Prod.fst).Nodup
    ∧ (reload ⟨none, none⟩
        (persist_to_file (storeOfPairs [(['l'], [' '])]) ⟨true, none⟩)).1
        = Except.ok ()
    ∧ contains_token (storeOfPairs [(['l'], [' '])]) [' '] = some true
    ∧ contains_token (reload ⟨none, none⟩
        (persist_to_file (storeOfPairs [(['l'], [' '])]) ⟨true, none⟩)).2 [' ']
        = some false := by decide

/-- C2 (amended): for pairs with pairwise-distinct labels where neither
field contains ':' or a newline and neither field starts or ends with
whitespace, persisting the store holding exactly those pairs and reloading
from the same file (into any store) reproduces the original tokens map and
lookup set exactly. -/
theorem claim2_roundtrip (pairs : List (Str × Str))
    (hnodup : (pairs.map Prod.fst).Nodup)
    (hgood : ∀ p ∈ pairs, goodField p.1 ∧ goodField p.2)
    (st0 : TokenStore) (fs : FS) :
    reload st0 (persist_to_file (storeOfPairs pairs) fs)
      = (Except.ok (), storeOfPairs pairs) := by
  have hq : ∀ q ∈ pairs.map (fun p => ((p.1 : Str), (⟨p.1, p.2⟩ : Token))),
      goodField q.2.label ∧ goodField q.2.secret ∧ q.2.label = q.1 := by
    intro q hqm
    obtain ⟨p, hp, rfl⟩ := List.mem_map.mp hqm
    exact ⟨(hgood p hp).1, (hgood p hp).2, rfl⟩
  have hlines : ∀ l ∈ (pairs.map (fun p => ((p.1 : Str), (⟨p.1, p.2⟩ : Token)))).map
      (fun q => Token.display q.2), '\n' ∉ l ∧ stripTrailCr l = l := by
    intro l hlm
    obtain ⟨q, hqm, rfl⟩ := List.mem_map.mp hlm
    obtain ⟨⟨_, hln, _⟩, ⟨_, hsn, hsw⟩, _⟩ := hq q hqm
    exact ⟨display_not_mem_nl _ hln hsn,
      stripTrailCr_eq_self _ (display_getLast_ne_cr _ hsw)⟩
  have hparse : ∀ q ∈ pairs.map (fun p => ((p.1 : Str), (⟨p.1, p.2⟩ : Token))),
      Token.from_str (Token.display q.2) = some q.2 ∧ q.2.label = q.1 := by
    intro q hqm
    obtain ⟨⟨hlc, _, hlw⟩, ⟨_, _, hsw⟩, hql⟩ := hq q hqm
    exact ⟨from_str_display _ hlc hlw hsw, hql⟩
  have hser : serialize (pairs.map (fun p => (p.1, ⟨p.1, p.2⟩)))
      = (((pairs.map (fun p => ((p.1 : Str), (⟨p.1, p.2⟩ : Token)))).map
          (fun q => Token.display q.2)).map (fun l => l ++ ['\n'])).flatten := by
    rw [serialize]
    simp only [List.map_map]
    rfl
  have hsplit : splitLines
        (serialize (pairs.map (fun p => (p.1, ⟨p.1, p.2⟩))))
      = (pairs.map (fun p => ((p.1 : Str), (⟨p.1, p.2⟩ : Token)))).map
          (fun q => Token.display q.2) := by
    rw [hser]
    exact splitLines_flatten _ hlines
  have hnd : (keys ([] : TokenMap)
      ++ keys (pairs.map (fun p => (p.1, ⟨p.1, p.2⟩)))).Nodup := by
    simp only [keys, List.map_nil, List.nil_append, List.map_map]
    exact hnodup
  have hparsed : parseLinesAux []
        (splitLines (serialize (pairs.map (fun p => (p.1, ⟨p.1, p.2⟩)))))
      = some (pairs.map (fun p => (p.1, ⟨p.1, p.2⟩))) := by
    rw [hsplit]
    rw [parseLinesAux_roundtrip _ [] hparse hnd]
    rw [List.nil_append]
  have hfile : (persist_to_file (storeOfPairs pairs) fs).file
      = some (serialize (pairs.map (fun p => (p.1, ⟨p.1, p.2⟩)))) := rfl
  simp only [reload, hfile, hparsed, rebuild_token_lookup]
  simp [storeOfPairs]

/-- C2 witness: two distinct well-formed pairs survive the persist-reload
round trip exactly. -/
theorem claim2_witness :
    reload ⟨none, none⟩
        (persist_to_file (storeOfPairs [("a".data, "s".data), ("b".data, "t".data)])
          ⟨true, none⟩)
      = (Except.ok (), storeOfPairs [("a".data, "s".data), ("b".data, "t".data)]) :=
  claim2_roundtrip [("a".data, "s".data), ("b".data, "t".data)]
    (by decide) (by decide) ⟨none, none⟩ ⟨true, none⟩

theorem claim5_witness :
    serve_connection ⟨some [], some [['s']]⟩
        ((([] : List Str) ++ (authPre ++ ['s']) :: []).map ReadEvent.line)
      = Except.ok (if contains_token ⟨some [], some [['s']]⟩ ['s'] = some true
          then HttpResponse.ok else HttpResponse.unauthorised) :=
  (claim5_bearer_decision ⟨some [], some [['s']]⟩ [['s']] rfl []
    (by simp)).1 ['s'] []

end Mellon
